import Mathlib

/-!
Verification development for the mdbook-codetags preprocessor
(`src/preprocessor.rs`).  The Rust code is shallow-embedded below:

* `CodeTag`, `Chapter`, `CodeBook` model the tag catalog; Rust's
  `u32`/`usize` fields only ever participate in comparisons here, so they
  are modelled as `Nat`.
* `Location` models the recursive Rust struct
  `Location { parent: Option<Box<Location>>, kind, name, is_function_declaration }`.
  The two constructors `root`/`child` encode `parent = None` / `parent = Some _`;
  `Location.make` mirrors a Rust struct literal with an `Option` parent, and
  structural equality coincides with the derived `PartialEq` of the source.
* Fallible / panicking Rust paths (`unwrap`, `assert!`, `panic!`, index out of
  bounds) are modelled with `Except String`: an `Except.error` stands for an
  aborted run.
* The interval-stack `Vec<ParseState>` with `push`/`pop`/`last` acting on the
  back is modelled as a `List ParseState` whose head is the top of the stack
  (`push` = cons, `Vec::pop` = `List.tail`, `last()` = `List.head?`;
  `Vec::pop` on an empty vector returns `None` and is a no-op, matching
  `List.tail [] = []`).
-/

/-- Embeds Rust `struct CodeTag` (preprocessor.rs). `chapter : usize` and
`index : u32` only occur in order comparisons, hence `Nat`. -/
structure CodeTag where
  chapter : Nat
  name : String
  index : Nat
  no_location : Bool
  before_count : Nat
  after_count : Nat
deriving DecidableEq

/-- Embeds `CodeTag::is_before`. -/
def CodeTag.is_before (self other : CodeTag) : Bool :=
  if self.chapter ≠ other.chapter then decide (self.chapter < other.chapter)
  else decide (self.index < other.index)

/-- Embeds Rust `struct Chapter`. -/
structure Chapter where
  name : String
  code_tags : List CodeTag
deriving DecidableEq

/-- Embeds `Chapter::find_code_tag`: first tag with the given name. -/
def Chapter.find_code_tag (c : Chapter) (name : String) : Option CodeTag :=
  c.code_tags.find? (fun t => t.name = name)

/-- Embeds Rust `struct CodeBook`. -/
structure CodeBook where
  chapters : List Chapter
deriving DecidableEq

/-- Embeds `CodeBook::find_chapter`. -/
def CodeBook.find_chapter (b : CodeBook) (name : String) : Option Chapter :=
  b.chapters.find? (fun c => c.name = name)

/-- Embeds `CodeBook::find_code_tag`: resolve the chapter by name, then try the
synthetic last chapter first (the `omit`/`not-yet` override) and fall back to
the resolved chapter.  Rust's `self.chapters.last().unwrap()` can only panic
when `chapters` is empty, in which case `find_chapter` already returned `None`,
so the `getLast? = none` branch below is unreachable. -/
def CodeBook.find_code_tag (b : CodeBook) (chapter name : String) : Option CodeTag :=
  (b.find_chapter chapter).bind (fun ch =>
    match b.chapters.getLast? with
    | none => none
    | some lastCh => (lastCh.find_code_tag name).orElse (fun _ => ch.find_code_tag name))

/-- Embeds Rust `struct Location`, a singly linked parent chain.
`root k n f` stands for `Location { parent: None, kind: k, name: n, is_function_declaration: f }`
and `child p k n f` for the same struct with `parent: Some(Box(p))`.
Derived `DecidableEq` coincides with the source's derived `PartialEq`. -/
inductive Location where
  | root (kind : String) (name : Option String) (is_function_declaration : Bool)
  | child (parent : Location) (kind : String) (name : Option String) (is_function_declaration : Bool)
deriving DecidableEq

/-- Builds a `Location` from an optional parent, mirroring the Rust struct
literal `Location { parent, kind, name, is_function_declaration }`. -/
def Location.make (parent : Option Location) (kind : String) (name : Option String)
    (is_function_declaration : Bool) : Location :=
  match parent with
  | none => .root kind name is_function_declaration
  | some p => .child p kind name is_function_declaration

/-- Field accessor: `self.parent` as an `Option`. -/
def Location.parent : Location → Option Location
  | .root _ _ _ => none
  | .child p _ _ _ => some p

/-- Field accessor: `self.kind`. -/
def Location.kind : Location → String
  | .root k _ _ => k
  | .child _ k _ _ => k

/-- Field accessor: `self.name`. -/
def Location.name : Location → Option String
  | .root _ n _ => n
  | .child _ _ n _ => n

/-- Field accessor: `self.is_function_declaration`. -/
def Location.is_function_declaration : Location → Bool
  | .root _ _ f => f
  | .child _ _ _ f => f

/-- Embeds `Location::is_file`. -/
def Location.is_file (l : Location) : Bool :=
  l.kind = "file"

/-- Embeds `Location::is_function`. -/
def Location.is_function (l : Location) : Bool :=
  l.kind = "constructor" || l.kind = "function" || l.kind = "method"

/-- Embeds `Location::depth`: the loop walking the parent chain counts the
nodes from `self` up to and including the root. -/
def Location.depth : Location → Nat
  | .root _ _ _ => 1
  | .child p _ _ _ => 1 + p.depth

/-- The `locations` vector built by the loop at the start of
`Location::pop_to_depth`: `self`, its parent, …, the root. -/
def Location.toChain : Location → List Location
  | .root k n f => [Location.root k n f]
  | .child p k n f => Location.child p k n f :: p.toChain

/-- Embeds `Location::pop_to_depth`: collect the chain, return `self` when the
chain is already shallower than `depth + 1`, else index
`locations[locations.len() - depth - 1]`.  The index is in bounds in that
branch, so `getD`'s default is never used. -/
def Location.pop_to_depth (l : Location) (depth : Nat) : Location :=
  let locations := l.toChain
  if locations.length < depth + 1 then l
  else locations.getD (locations.length - depth - 1) l

/-- Embeds Rust `struct SourceLine`.  The Rust field `end` is a Lean keyword
and is rendered `endTag`. -/
structure SourceLine where
  content : String
  location : Location
  start : CodeTag
  endTag : Option CodeTag
deriving DecidableEq

/-- Embeds `SourceLine::is_present_at`: false when the queried `tag` is before
the line's start region, or when the line carries an end region such that
`tag.is_before(end).not()`. -/
def SourceLine.is_present_at (l : SourceLine) (tag : CodeTag) : Bool :=
  if tag.is_before l.start then false
  else
    match l.endTag with
    | some e => if !(tag.is_before e) then false else true
    | none => true

/-- Embeds Rust `struct SourceFile`. -/
structure SourceFile where
  lines : List SourceLine
deriving DecidableEq

/-- Claim-side definition, written from the spec sentence behind C1 (not from
the code): presence is false exactly when the line's start region precedes the
queried tag, or the line's end region is at-or-after the queried tag. -/
def specPresentAtClaim (l : SourceLine) (tag : CodeTag) : Bool :=
  !(l.start.is_before tag) &&
    (match l.endTag with
     | some e => e.is_before tag
     | none => true)

/-- Amended claim-side definition for C1: presence is false exactly when the
queried tag precedes the line's start region, or the line's end region is
at-or-before the queried tag. -/
def specPresentAtAmended (l : SourceLine) (tag : CodeTag) : Bool :=
  !(tag.is_before l.start) &&
    (match l.endTag with
     | some e => tag.is_before e
     | none => true)

/-- Claim C1 (corrected), counterexample: a line whose start region has ordinal
1 and no end region, queried at the same chapter's ordinal-0 region.  The
claim's reading predicts presence (the start region, ordinal 1, is not before
ordinal 0), but `is_present_at` returns `false` because the queried region
precedes the line's start region. -/
theorem c1_counterexample :
    (SourceLine.mk "x" (Location.make none "file" (some "f") false)
        (CodeTag.mk 0 "s" 1 false 0 0) none).is_present_at (CodeTag.mk 0 "t" 0 false 0 0)
      = false
    ∧ specPresentAtClaim
        (SourceLine.mk "x" (Location.make none "file" (some "f") false)
          (CodeTag.mk 0 "s" 1 false 0 0) none) (CodeTag.mk 0 "t" 0 false 0 0)
      = true := by
  constructor <;> rfl

/-- Claim C1 (amended): a stamped line is present at a queried tag T iff T is
not ordered before the line's start region and, when the line carries an end
region, T is ordered strictly before that end region; i.e. presence is false
exactly when T precedes the line's start region or the line's end region is
at-or-before T. -/
theorem c1_amended (l : SourceLine) (tag : CodeTag) :
    l.is_present_at tag = specPresentAtAmended l tag := by
  unfold SourceLine.is_present_at specPresentAtAmended
  cases h : l.endTag <;> cases hs : tag.is_before l.start <;> simp [h, hs]

/-- Unfolding lemma for `Location.pop_to_depth`. -/
theorem pop_to_depth_eq (l : Location) (d : Nat) :
    l.pop_to_depth d =
      if l.toChain.length < d + 1 then l
      else l.toChain.getD (l.toChain.length - d - 1) l := rfl

/-- Every element of a location chain has the corresponding suffix of the
chain as its own chain. -/
theorem toChain_getElem : ∀ (l : Location) (i : Nat) (h : i < l.toChain.length),
    (l.toChain[i]).toChain = l.toChain.drop i := by
  intro l
  induction l with
  | root k n f =>
    intro i h
    simp [Location.toChain] at h
    subst h
    simp [Location.toChain]
  | child p k n f ih =>
    intro i h
    match i with
    | 0 => simp [Location.toChain]
    | j + 1 =>
      simp [Location.toChain] at h ⊢
      exact ih j (by omega)

/-- A location's chain starts with the location itself. -/
theorem toChain_head : ∀ l : Location, ∃ t, l.toChain = l :: t := by
  intro l
  cases l with
  | root k n f => exact ⟨[], rfl⟩
  | child p k n f => exact ⟨p.toChain, rfl⟩

/-- Chain length equals depth. -/
theorem toChain_length (l : Location) : l.toChain.length = l.depth := by
  induction l with
  | root k n f => rfl
  | child p k n f ih => simp [Location.toChain, Location.depth, ih, Nat.add_comm]

/-- Claim C9 (confirmed): `pop_to_depth d` is a no-op on chains shallower than
`d + 1` nodes, otherwise returns an ancestor (a member of the chain) whose
depth is exactly `d + 1`; and it is idempotent — in particular when the chain's
depth is already at most `d + 1`. -/
theorem c9_pop_to_depth (l : Location) (d : Nat) :
    (l.depth < d + 1 → l.pop_to_depth d = l)
    ∧ (l.pop_to_depth d) ∈ l.toChain
    ∧ (d + 1 ≤ l.depth → (l.pop_to_depth d).depth = d + 1)
    ∧ (l.pop_to_depth d).pop_to_depth d = l.pop_to_depth d := by
  by_cases hlen : l.toChain.length < d + 1
  · have h1 : l.pop_to_depth d = l := by
      rw [pop_to_depth_eq]
      simp [hlen]
    refine ⟨fun _ => h1, ?_, fun hd => ?_, ?_⟩
    · rw [h1]
      obtain ⟨t, ht⟩ := toChain_head l
      rw [ht]; exact List.mem_cons_self _ _
    · exfalso
      rw [toChain_length] at hlen
      omega
    · rw [h1, h1]
  · have hle : d + 1 ≤ l.toChain.length := Nat.le_of_not_lt hlen
    have hidx : l.toChain.length - d - 1 < l.toChain.length := by omega
    have hres : l.pop_to_depth d = l.toChain[l.toChain.length - d - 1] := by
      rw [pop_to_depth_eq]
      simp only [hlen, if_false]
      exact List.getD_eq_getElem _ _ hidx
    have hchain : (l.pop_to_depth d).toChain = l.toChain.drop (l.toChain.length - d - 1) := by
      rw [hres]; exact toChain_getElem l _ hidx
    have hdepth : (l.pop_to_depth d).depth = d + 1 := by
      rw [← toChain_length, hchain, List.length_drop]
      omega
    refine ⟨fun hlt => ?_, ?_, fun _ => hdepth, ?_⟩
    · rw [← toChain_length] at hlt; omega
    · rw [hres]; exact List.getElem_mem _
    · rw [pop_to_depth_eq (l.pop_to_depth d) d]
      have hlen2 : (l.pop_to_depth d).toChain.length = d + 1 := by
        rw [toChain_length, hdepth]
      rw [hlen2]
      have hnlt : ¬ (d + 1 < d + 1) := by omega
      simp only [hnlt, if_false]
      have hzero : d + 1 - d - 1 = 0 := by omega
      rw [hzero]
      obtain ⟨t, ht⟩ := toChain_head (l.pop_to_depth d)
      rw [ht]
      rfl

/-- Witness for C9: the first branch at a chain of depth 1 with `d = 1`, the
depth statement at a chain of depth 2 with `d = 0`. -/
theorem c9_pop_to_depth_witness :
    (Location.make none "file" (some "f") false).pop_to_depth 1
        = Location.make none "file" (some "f") false
    ∧ ((Location.make (some (Location.make none "file" (some "f") false)) "class"
        (some "C") false).pop_to_depth 0).depth = 1 := by
  constructor
  · exact (c9_pop_to_depth (Location.make none "file" (some "f") false) 1).1 (by decide)
  · exact (c9_pop_to_depth (Location.make (some (Location.make none "file" (some "f") false))
      "class" (some "C") false) 0).2.2.1 (by decide)

/-- Embeds `Location::recurse` from preprocessor.rs, the breadcrumb renderer.
Parent phrases are emitted first (the recursive call), then the first matching
rule of the fixed rule chain appends at most one phrase.  Rust's
`unwrap()` calls on `name`/`preceding` are modelled in the `Option` monad: a
`none` result stands for a panic. -/
def Location.recurse (l : Location) (preceding : Option Location) (has_removed : Bool) :
    Option (List String) := do
  let result ← match l with
    | .child par _ _ _ => par.recurse preceding has_removed
    | .root _ _ _ => pure ([] : List String)
  if l.kind = "file" then do
    let n ← l.name
    pure (result ++ ["<em>" ++ n ++ "</em>"])
  else if l.kind = "new" then
    pure (result ++ ["create new file"])
  else if l.kind = "top" then
    pure (result ++ ["add to top of file"])
  else if l.kind = "class" then do
    let n ← l.name
    pure (result ++ ["in class <em>" ++ n ++ "</em>"])
  else if l.is_function && decide (preceding = some l) then do
    let n ← l.name
    pure (result ++ ["in <em>" ++ n ++ "</em>()"])
  else if l.is_function && has_removed then do
    let n ← l.name
    pure (result ++ [l.kind ++ " <em>" ++ n ++ "</em>()"])
  else if decide (l.parent = preceding) && !(preceding.elim false Location.is_file) then do
    let p ← preceding
    let pn ← p.name
    pure (result ++ ["in " ++ p.kind ++ " <em>" ++ pn ++ "</em>"])
  else if decide (preceding = some l) && !l.is_file then
    pure (result ++ ["in " ++ l.kind ++ " <em>$name</em>"])
  else if preceding.elim false Location.is_function then do
    let p ← preceding
    let pn ← p.name
    pure (result ++ ["add after <em>" ++ pn ++ "</em>()"])
  else if !(preceding.elim true Location.is_file) then do
    let p ← preceding
    let pn ← p.name
    pure (result ++ ["add after " ++ p.kind ++ " <em>" ++ pn ++ "</em>"])
  else
    pure result

/-- The parent half of `Location::recurse`: the phrases already emitted when
the rule chain runs on a node whose parent field is `parent`. -/
def recurseParentResult (parent : Option Location) (preceding : Option Location)
    (has_removed : Bool) : Option (List String) :=
  match parent with
  | some p => p.recurse preceding has_removed
  | none => some []

/-- Claim C2 (corrected), counterexample: an `enum` node named `E` under a file
node.  Rule 4 of the renderer matches only the literal kind `class`, so the
rendered breadcrumb for the enum chain is just the file phrase and contains no
"in enum <em>E</em>" phrase, contradicting the claim that every type keyword
(class/enum/interface) emits "in <kind> <name>". -/
theorem c2_counterexample :
    (Location.make (some (Location.make none "file" (some "F.java") false)) "enum"
        (some "E") false).recurse none false = some ["<em>F.java</em>"]
    ∧ "in enum <em>E</em>" ∉ ["<em>F.java</em>"] := by
  constructor
  · rfl
  · decide

/-- Claim C2 (amended): rule 4 of the breadcrumb renderer applies exactly to
kind `class`: a Location node of kind `class` with name `N` emits the phrase
"in class <em>N</em>" after its parent's phrases (whenever the parent chain
renders without a panic); `enum` and `interface` nodes are not matched by this
rule and fall through to the later rules. -/
theorem c2_amended (par : Option Location) (n : String) (prec : Option Location)
    (hr : Bool) (res0 : List String)
    (h : recurseParentResult par prec hr = some res0) :
    (Location.make par "class" (some n) false).recurse prec hr
      = some (res0 ++ ["in class <em>" ++ n ++ "</em>"]) := by
  cases par with
  | none =>
    simp only [recurseParentResult, Option.some.injEq] at h
    subst h
    rfl
  | some p =>
    simp only [recurseParentResult] at h
    show (do
      let result ← p.recurse prec hr
      pure (result ++ ["in class <em>" ++ n ++ "</em>"]) : Option (List String)) = _
    rw [h]
    rfl

/-- Witness for C2's amended theorem at a concrete root class node. -/
theorem c2_amended_witness :
    (Location.make none "class" (some "A") false).recurse none false
      = some ([] ++ ["in class <em>A</em>"]) :=
  c2_amended none "A" none false [] rfl

/-- Embeds Rust `struct ParseState` (a stack frame of the interval parser).
The Rust field `end` is a Lean keyword and is rendered `endTag`. -/
structure ParseState where
  start : CodeTag
  endTag : Option CodeTag
deriving DecidableEq

/-- Embeds Rust's `str::trim` (whitespace stripped from both ends), written
with structural recursion so the kernel can evaluate it. -/
def rustTrim (s : String) : String :=
  String.mk (((s.data.dropWhile Char.isWhitespace).reverse.dropWhile Char.isWhitespace).reverse)

/-- The outcome of matching one raw source line against the marker forms of
`SourceFileParser::update_state`, in the order the code tests them:
`START_RE` (`^//> ([A-Z][A-Za-z\s]+\s+)?([-a-z0-9]+)$`),
`END_RE` (`^//< ([A-Z][A-Za-z\s]+\s+)?([-a-z0-9]+)$`),
`START_BLOCK_RE` (`^/\* ([A-Z][A-Za-z\s]+) ([-a-z0-9]+) < ([A-Z][A-Za-z\s]+) ([-a-z0-9]+)$`),
then the literal test `line.trim() == "*/"`, and finally the content case.
Chapter-name fields carry the raw capture groups; the code applies `.trim()`
at each use site and so does the embedding (via `rustTrim`). -/
inductive ParsedLine where
  | startMark (chapterName : Option String) (name : String)
  | endMark (chapterName : Option String) (name : String)
  | startBlock (startChapter : String) (startName : String)
      (endChapter : String) (endName : String)
  | closeBlock
  | content (text : String)
deriving DecidableEq

/-- Whether an `Except` computation ended in a (modelled) panic. -/
def exceptIsError {ε α : Type} : Except ε α → Bool
  | .error _ => true
  | .ok _ => false

/-- Embeds `SourceFileParser::push`: resolve the start chapter name (the
explicit capture group, or the innermost open interval's chapter via
`states.last().unwrap()` and the chapter index), trim it, resolve the start
tag (`unwrap_or_else` panics on an unknown tag), resolve the explicit end tag
when given (plain `unwrap`), and push the new frame.  Each `Except.error`
models the corresponding panic. -/
def SourceFileParser.push (book : CodeBook) (states : List ParseState)
    (startChapterName : Option String) (startName : String)
    (endSpec : Option (String × String)) : Except String (List ParseState) :=
  let rawChapter : Except String String :=
    match startChapterName with
    | some c => Except.ok c
    | none =>
        match states.head? with
        | none => Except.error "last() on empty stack"
        | some top =>
            match book.chapters[top.start.chapter]? with
            | none => Except.error "chapter index out of bounds"
            | some ch => Except.ok ch.name
  match rawChapter with
  | Except.error e => Except.error e
  | Except.ok raw =>
      match book.find_code_tag (rustTrim raw) startName with
      | none => Except.error "unknown start tag"
      | some startTag =>
          match endSpec with
          | none => Except.ok (ParseState.mk startTag none :: states)
          | some (endChapterName, endName) =>
              match book.find_code_tag endChapterName endName with
              | none => Except.error "unknown end tag"
              | some endTag => Except.ok (ParseState.mk startTag (some endTag) :: states)

/-- The tail of `update_state`'s end-marker branch: the
`assert_eq!(states.last().unwrap().start.name, end_name)` check followed by
`assert!(states.len() > 0)` (a no-op once `last()` succeeded) and the pop. -/
def popMatchingEnd (states : List ParseState) (endName : String) :
    Except String (List ParseState × Bool) :=
  match states.head? with
  | none => Except.error "last() on empty stack"
  | some top =>
      if top.start.name = endName then Except.ok (states.tail, true)
      else Except.error "end marker name mismatch"

/-- Embeds `SourceFileParser::update_state`.  Returns the updated stack and
`true` when the line was a marker, `false` for a content line; `Except.error`
models a panic (failed `assert_eq!`, `unwrap`, or out-of-bounds chapter
index).  The `closeBlock` case mirrors Rust's `Vec::pop`, which silently does
nothing on an empty stack. -/
def SourceFileParser.update_state (book : CodeBook) (states : List ParseState)
    (line : ParsedLine) : Except String (List ParseState × Bool) :=
  match line with
  | .startMark chap name =>
      (match SourceFileParser.push book states chap name none with
       | Except.error e => Except.error e
       | Except.ok sts => Except.ok (sts, true))
  | .endMark chap endName =>
      (match chap with
       | some chapterName =>
          (match states.head? with
           | none => Except.error "last() on empty stack"
           | some top =>
              match book.chapters[top.start.chapter]? with
              | none => Except.error "chapter index out of bounds"
              | some testChapter =>
                  if testChapter.name = "$static$" then popMatchingEnd states endName
                  else if testChapter.name = rustTrim chapterName then
                    popMatchingEnd states endName
                  else Except.error "end marker chapter mismatch")
       | none => popMatchingEnd states endName)
  | .startBlock startChapter startName endChapter endName =>
      (match SourceFileParser.push book states (some startChapter) startName
          (some (rustTrim endChapter, endName)) with
       | Except.error e => Except.error e
       | Except.ok sts => Except.ok (sts, true))
  | .closeBlock => Except.ok (states.tail, true)
  | .content _ => Except.ok (states, false)

/-- Embeds the per-line body of `SourceFileParser::parse_source_file`: run
`update_state`; when the line was not a marker, read the innermost open
interval with `states.last().unwrap()` and stamp the line with its start and
end tags.  The wildcard text arm is unreachable: `update_state` returns
`false` only in the `content` case. -/
def SourceFileParser.process_line (book : CodeBook) (states : List ParseState)
    (location : Location) (line : ParsedLine) :
    Except String (List ParseState × Option SourceLine) :=
  match SourceFileParser.update_state book states line with
  | Except.error e => Except.error e
  | Except.ok (sts, handled) =>
      if handled then Except.ok (sts, none)
      else
        match sts.head? with
        | none => Except.error "last() on empty stack"
        | some state =>
            let text := match line with
              | .content t => t
              | _ => ""
            Except.ok (sts, some (SourceLine.mk text location state.start state.endTag))

/-- A small concrete catalog used by counterexamples and witnesses: one real
chapter and the synthetic `$static$` chapter that `collect_code_tags` always
appends last. -/
def sampleBook : CodeBook :=
  CodeBook.mk
    [Chapter.mk "Intro" [CodeTag.mk 0 "setup" 0 false 2 1],
     Chapter.mk "$static$"
       [CodeTag.mk 1 "omit" 9998 false 0 0, CodeTag.mk 1 "not-yet" 9999 false 0 0]]

/-- Claim C3 (corrected), counterexample: a line that is exactly `*/`
processed with an empty interval stack is silently consumed — `update_state`
succeeds, leaving the stack empty, because `Vec::pop` on an empty vector is a
no-op; the claim predicted a fatal abort. -/
theorem c3_counterexample :
    SourceFileParser.update_state sampleBook [] ParsedLine.closeBlock
      = Except.ok ([], true) := rfl

/-- Claim C3 (amended): a `*/` line with no open interval is silently ignored
(the pop on the empty stack does nothing and the line is still consumed as a
marker), whereas an end-marker line (`//< …`) with an empty stack does abort
the run, with or without an explicit chapter name. -/
theorem c3_amended (book : CodeBook) :
    SourceFileParser.update_state book [] ParsedLine.closeBlock = Except.ok ([], true)
    ∧ (∀ name : String,
        SourceFileParser.update_state book [] (ParsedLine.endMark none name)
          = Except.error "last() on empty stack")
    ∧ (∀ chapterName name : String,
        SourceFileParser.update_state book [] (ParsedLine.endMark (some chapterName) name)
          = Except.error "last() on empty stack") :=
  ⟨rfl, fun _ => rfl, fun _ _ => rfl⟩

/-- Claim C4 (confirmed): an end marker whose name differs from the innermost
open interval's start-region name always aborts (no state is ever returned,
so no pop or resync happens); and an end marker carrying an explicit chapter
name that differs from the open region's chapter aborts as well when that
chapter is not the synthetic `$static$` one. -/
theorem c4_end_marker_mismatch :
    (∀ (book : CodeBook) (states : List ParseState) (chap : Option String)
       (endName : String) (top : ParseState),
        states.head? = some top →
        top.start.name ≠ endName →
        exceptIsError (SourceFileParser.update_state book states (ParsedLine.endMark chap endName))
          = true)
    ∧ (∀ (book : CodeBook) (states : List ParseState) (chapterName endName : String)
        (top : ParseState) (testChapter : Chapter),
        states.head? = some top →
        book.chapters[top.start.chapter]? = some testChapter →
        testChapter.name ≠ "$static$" →
        testChapter.name ≠ rustTrim chapterName →
        exceptIsError (SourceFileParser.update_state book states
            (ParsedLine.endMark (some chapterName) endName))
          = true) := by
  have hpop : ∀ (states : List ParseState) (endName : String) (top : ParseState),
      states.head? = some top → top.start.name ≠ endName →
      exceptIsError (popMatchingEnd states endName) = true := by
    intro states endName top htop hname
    simp [popMatchingEnd, htop, hname, exceptIsError]
  constructor
  · intro book states chap endName top htop hname
    cases chap with
    | none =>
      simpa [SourceFileParser.update_state] using hpop states endName top htop hname
    | some chapterName =>
      simp only [SourceFileParser.update_state, htop]
      cases hidx : book.chapters[top.start.chapter]? with
      | none => simp [exceptIsError]
      | some testChapter =>
        by_cases h1 : testChapter.name = "$static$"
        · simpa [h1] using hpop states endName top htop hname
        · by_cases h2 : testChapter.name = rustTrim chapterName
          · simpa [h1, h2] using hpop states endName top htop hname
          · simp [h1, h2, exceptIsError]
  · intro book states chapterName endName top testChapter htop hidx h1 h2
    simp [SourceFileParser.update_state, htop, hidx, h1, h2, exceptIsError]

/-- Witness for C4 at a concrete mismatching end marker: the open interval's
start region is `setup`, the end marker names `omit` (and, for the second
conjunct, names chapter `Other` while the open region's chapter is `Intro`). -/
theorem c4_end_marker_mismatch_witness :
    exceptIsError (SourceFileParser.update_state sampleBook
        [ParseState.mk (CodeTag.mk 0 "setup" 0 false 2 1) none]
        (ParsedLine.endMark none "omit")) = true
    ∧ exceptIsError (SourceFileParser.update_state sampleBook
        [ParseState.mk (CodeTag.mk 0 "setup" 0 false 2 1) none]
        (ParsedLine.endMark (some "Other") "setup")) = true := by
  constructor
  · exact c4_end_marker_mismatch.1 sampleBook
      [ParseState.mk (CodeTag.mk 0 "setup" 0 false 2 1) none]
      none "omit" (ParseState.mk (CodeTag.mk 0 "setup" 0 false 2 1) none) rfl (by decide)
  · exact c4_end_marker_mismatch.2 sampleBook
      [ParseState.mk (CodeTag.mk 0 "setup" 0 false 2 1) none]
      "Other" "setup" (ParseState.mk (CodeTag.mk 0 "setup" 0 false 2 1) none)
      (Chapter.mk "Intro" [CodeTag.mk 0 "setup" 0 false 2 1]) rfl rfl (by decide) (by decide)

/-- Claim C5 (corrected), counterexample: `find_code_tag` first resolves the
*caller chapter* by name and gives up when it does not exist, before ever
consulting the synthetic last chapter.  With the standard catalog, looking up
the universal tag `omit` under the unknown caller chapter `Ghost` fails, and
the corresponding `push` aborts — contradicting the claim that `omit`
resolves for every caller chapter name. -/
theorem c5_counterexample :
    sampleBook.find_code_tag "Ghost" "omit" = none
    ∧ exceptIsError (SourceFileParser.push sampleBook [] (some "Ghost") "omit" none)
        = true := by
  constructor <;> rfl

/-- Claim C5 (amended): provided the caller chapter name resolves to a chapter
of the catalog, `find_code_tag` first consults the synthetic last chapter
(so a tag found there, such as `omit` or `not-yet`, overrides any same-named
region of the caller chapter) and then falls back to the caller chapter; and
whenever `find_code_tag` resolves nothing — in particular when the caller
chapter name is unknown — the engine's `push` aborts the run. -/
theorem c5_find_code_tag (book : CodeBook) (chapterName tagName : String) :
    (∀ ch lastCh, book.find_chapter chapterName = some ch →
        book.chapters.getLast? = some lastCh →
        book.find_code_tag chapterName tagName
          = ((lastCh.find_code_tag tagName).orElse (fun _ => ch.find_code_tag tagName))
        ∧ (∀ t, lastCh.find_code_tag tagName = some t →
            book.find_code_tag chapterName tagName = some t))
    ∧ (∀ (states : List ParseState) (raw : String),
        book.find_code_tag (rustTrim raw) tagName = none →
        exceptIsError (SourceFileParser.push book states (some raw) tagName none) = true) := by
  constructor
  · intro ch lastCh hch hlast
    have heq : book.find_code_tag chapterName tagName
        = ((lastCh.find_code_tag tagName).orElse (fun _ => ch.find_code_tag tagName)) := by
      unfold CodeBook.find_code_tag
      rw [hch, hlast]
      rfl
    refine ⟨heq, fun t ht => ?_⟩
    rw [heq, ht]
    rfl
  · intro states raw hnone
    simp [SourceFileParser.push, hnone, exceptIsError]

/-- Witness for C5's amended theorem: in the standard catalog, `omit` looked
up under caller chapter `Intro` resolves via the synthetic `$static$` chapter,
and pushing an unknown tag name aborts. -/
theorem c5_find_code_tag_witness :
    sampleBook.find_code_tag "Intro" "omit" = some (CodeTag.mk 1 "omit" 9998 false 0 0)
    ∧ exceptIsError (SourceFileParser.push sampleBook [] (some "Intro") "mystery" none)
        = true := by
  constructor
  · exact ((c5_find_code_tag sampleBook "Intro" "omit").1
      (Chapter.mk "Intro" [CodeTag.mk 0 "setup" 0 false 2 1])
      (Chapter.mk "$static$"
        [CodeTag.mk 1 "omit" 9998 false 0 0, CodeTag.mk 1 "not-yet" 9999 false 0 0])
      rfl rfl).2 (CodeTag.mk 1 "omit" 9998 false 0 0) rfl
  · exact (c5_find_code_tag sampleBook "Intro" "mystery").2 [] "Intro" rfl

/-- Claim C10 (confirmed): a content line (one matching none of the marker
forms) hit while the interval stack is empty aborts the run instead of
producing a `SourceLine` — e.g. any ordinary line before the file's first
start marker; with a non-empty stack the line is stamped with the innermost
interval's start and end tags. -/
theorem c10_content_line_needs_interval (book : CodeBook) (location : Location)
    (text : String) :
    SourceFileParser.process_line book [] location (ParsedLine.content text)
      = Except.error "last() on empty stack"
    ∧ (∀ (top : ParseState) (rest : List ParseState),
        SourceFileParser.process_line book (top :: rest) location (ParsedLine.content text)
          = Except.ok (top :: rest,
              some (SourceLine.mk text location top.start top.endTag))) :=
  ⟨rfl, fun _ _ => rfl⟩

/-- Embeds Rust `struct Snippet`. -/
structure Snippet where
  code_tag : CodeTag
  location : Option Location
  preceding_location : Option Location
  first_line : Nat
  last_line : Nat
  context_before : List String
  context_after : List String
  added : List String
  removed : List String
deriving DecidableEq

/-- The first loop of `Snippet::compute_context` (context-before).  The Rust
loop runs `i = first_line-1, …, 0`, so it is phrased here over the list
`(file.lines.take first_line).reverse`; the `insert(0, …)` of the source is
the `cons` onto the accumulator.  The budget test happens before each line is
examined, exactly as in the source. -/
def contextBeforeAux (tag : CodeTag) (budget : Nat) :
    List SourceLine → List String → List String
  | [], acc => acc
  | l :: rest, acc =>
      if budget ≤ acc.length then acc
      else if l.is_present_at tag then contextBeforeAux tag budget rest (l.content :: acc)
      else contextBeforeAux tag budget rest acc

/-- The second loop of `Snippet::compute_context` (context-after), phrased
over `file.lines.drop (last_line + 1)`; the `push` of the source is the
append onto the accumulator. -/
def contextAfterAux (tag : CodeTag) (budget : Nat) :
    List SourceLine → List String → List String
  | [], acc => acc
  | l :: rest, acc =>
      if budget ≤ acc.length then acc
      else if l.is_present_at tag then contextAfterAux tag budget rest (acc ++ [l.content])
      else contextAfterAux tag budget rest acc

/-- The preceding-location loop of `Snippet::compute_context`: walk backward
over the present-at lines (again over `(take first_line).reverse`), stop after
more than 4 present lines were checked, and keep the deepest location seen so
far (`map_or(true, |p| line.location.depth() > p.depth())` keeps the first on
ties). -/
def precedingAux (tag : CodeTag) :
    List SourceLine → Nat → Option Location → Option Location
  | [], _, acc => acc
  | l :: rest, checked, acc =>
      if 4 < checked then acc
      else if !(l.is_present_at tag) then precedingAux tag rest checked acc
      else
        precedingAux tag rest (checked + 1)
          (if acc.elim true (fun p => p.depth < l.location.depth) then some l.location
           else acc)

/-- The two `has_code_before` / `has_code_after` loops of
`Snippet::compute_context`: starting from the given flag, scan until the flag
is true, updating it with each line's presence. -/
def hasCodeAux (tag : CodeTag) : List SourceLine → Bool → Bool
  | [], b => b
  | l :: rest, b => if b then true else hasCodeAux tag rest (l.is_present_at tag)

/-- Embeds `Snippet::compute_context`.  The backward loops of the source run
over indices `first_line-1 … 0`, rendered here as
`(file.lines.take first_line).reverse` (in every snippet the driver builds,
`first_line` is an in-range line index).  The final location correction wraps
the snippet's location in a synthetic `top`/`new` node exactly when no code
is present before the snippet. -/
def Snippet.compute_context (s : Snippet) (file : SourceFile) : Snippet :=
  let beforeLines := (file.lines.take s.first_line).reverse
  let afterLines := file.lines.drop (s.last_line + 1)
  let context_before := contextBeforeAux s.code_tag s.code_tag.before_count beforeLines
    s.context_before
  let context_after := contextAfterAux s.code_tag s.code_tag.after_count afterLines
    s.context_after
  let preceding_location := precedingAux s.code_tag beforeLines 0 s.preceding_location
  let has_code_before := hasCodeAux s.code_tag beforeLines (!context_before.isEmpty)
  let has_code_after := hasCodeAux s.code_tag afterLines (!context_after.isEmpty)
  let location :=
    if !has_code_before then
      some (Location.make s.location (if has_code_after then "top" else "new") none false)
    else s.location
  { s with
      context_before := context_before
      context_after := context_after
      preceding_location := preceding_location
      location := location }

/-- `hasCodeAux` computes the disjunction of its seed flag and the presence of
any line of the scanned list. -/
theorem hasCodeAux_eq (tag : CodeTag) :
    ∀ (lines : List SourceLine) (b : Bool),
      hasCodeAux tag lines b = (b || lines.any (fun l => l.is_present_at tag)) := by
  intro lines
  induction lines with
  | nil => intro b; simp [hasCodeAux]
  | cons l rest ih =>
    intro b
    cases b with
    | true => simp [hasCodeAux]
    | false =>
      simp only [hasCodeAux, Bool.false_or, List.any_cons]
      rw [ih]
      cases l.is_present_at tag <;> simp

/-- When no scanned line is present at the tag, the context-before loop leaves
its accumulator unchanged. -/
theorem contextBeforeAux_of_none (tag : CodeTag) (b : Nat) :
    ∀ (lines : List SourceLine) (acc : List String),
      (∀ l ∈ lines, l.is_present_at tag = false) →
      contextBeforeAux tag b lines acc = acc := by
  intro lines
  induction lines with
  | nil => intro acc _; rfl
  | cons l rest ih =>
    intro acc h
    simp only [contextBeforeAux]
    have hl : l.is_present_at tag = false := h l (List.mem_cons_self _ _)
    rw [hl]
    by_cases hb : b ≤ acc.length
    · simp [hb]
    · simp only [hb, if_false, Bool.false_eq_true, if_false]
      exact ih acc (fun x hx => h x (List.mem_cons_of_mem _ hx))

/-- When no scanned line is present at the tag, the context-after loop leaves
its accumulator unchanged. -/
theorem contextAfterAux_of_none (tag : CodeTag) (b : Nat) :
    ∀ (lines : List SourceLine) (acc : List String),
      (∀ l ∈ lines, l.is_present_at tag = false) →
      contextAfterAux tag b lines acc = acc := by
  intro lines
  induction lines with
  | nil => intro acc _; rfl
  | cons l rest ih =>
    intro acc h
    simp only [contextAfterAux]
    have hl : l.is_present_at tag = false := h l (List.mem_cons_self _ _)
    rw [hl]
    by_cases hb : b ≤ acc.length
    · simp [hb]
    · simp only [hb, if_false, Bool.false_eq_true, if_false]
      exact ih acc (fun x hx => h x (List.mem_cons_of_mem _ hx))

/-- The context-before loop never grows its accumulator beyond the budget. -/
theorem contextBeforeAux_length (tag : CodeTag) (b : Nat) :
    ∀ (lines : List SourceLine) (acc : List String),
      acc.length ≤ b → (contextBeforeAux tag b lines acc).length ≤ b := by
  intro lines
  induction lines with
  | nil => intro acc h; exact h
  | cons l rest ih =>
    intro acc h
    simp only [contextBeforeAux]
    by_cases hb : b ≤ acc.length
    · simp only [hb, if_true]; exact h
    · have hlt : acc.length < b := Nat.lt_of_not_le hb
      simp only [hb, if_false]
      cases hl : l.is_present_at tag
      · simp only [Bool.false_eq_true, if_false]
        exact ih acc h
      · simp only [if_true]
        exact ih (l.content :: acc) (by simpa using hlt)

/-- The context-after loop never grows its accumulator beyond the budget. -/
theorem contextAfterAux_length (tag : CodeTag) (b : Nat) :
    ∀ (lines : List SourceLine) (acc : List String),
      acc.length ≤ b → (contextAfterAux tag b lines acc).length ≤ b := by
  intro lines
  induction lines with
  | nil => intro acc h; exact h
  | cons l rest ih =>
    intro acc h
    simp only [contextAfterAux]
    by_cases hb : b ≤ acc.length
    · simp only [hb, if_true]; exact h
    · have hlt : acc.length < b := Nat.lt_of_not_le hb
      simp only [hb, if_false]
      cases hl : l.is_present_at tag
      · simp only [Bool.false_eq_true, if_false]
        exact ih acc h
      · simp only [if_true]
        exact ih (acc ++ [l.content]) (by simpa using hlt)

/-- Claim C7 (confirmed): after `compute_context` (run, as in the driver, on a
snippet with empty context accumulators), the snippet's location is unchanged
when some line before `first_line` is present at the snippet's region, and is
otherwise replaced by a synthetic wrapper parented on the original location
whose kind is `top` when some line after `last_line` is present at the region
and `new` otherwise. -/
theorem c7_location_correction (s : Snippet) (f : SourceFile)
    (hb : s.context_before = []) (ha : s.context_after = []) :
    (s.compute_context f).location =
      if (f.lines.take s.first_line).any (fun l => l.is_present_at s.code_tag) then
        s.location
      else
        some (Location.make s.location
          (if (f.lines.drop (s.last_line + 1)).any (fun l => l.is_present_at s.code_tag)
           then "top" else "new") none false) := by
  simp only [Snippet.compute_context]
  cases hany : (f.lines.take s.first_line).any (fun l => l.is_present_at s.code_tag) with
  | true =>
    have hrev : ((f.lines.take s.first_line).reverse).any
        (fun l => l.is_present_at s.code_tag) = true := by
      rw [List.any_reverse]; exact hany
    rw [hasCodeAux_eq, hrev]
    simp
  | false =>
    have hnone : ∀ l ∈ (f.lines.take s.first_line).reverse, l.is_present_at s.code_tag = false := by
      intro l hl
      rw [List.mem_reverse] at hl
      have := List.any_eq_false.mp hany l hl
      simpa using this
    have hrev : ((f.lines.take s.first_line).reverse).any
        (fun l => l.is_present_at s.code_tag) = false := by
      rw [List.any_reverse]; exact hany
    have hctxb : contextBeforeAux s.code_tag s.code_tag.before_count
        ((f.lines.take s.first_line).reverse) s.context_before = [] := by
      rw [contextBeforeAux_of_none _ _ _ _ hnone]; exact hb
    rw [hasCodeAux_eq, hctxb, hrev]
    simp only [List.isEmpty_nil, Bool.not_true, Bool.false_or, Bool.not_false, if_true]
    cases hafter : (f.lines.drop (s.last_line + 1)).any (fun l => l.is_present_at s.code_tag) with
    | true =>
      rw [hasCodeAux_eq, hafter]
      simp
    | false =>
      have hnonea : ∀ l ∈ f.lines.drop (s.last_line + 1),
          l.is_present_at s.code_tag = false := by
        intro l hl
        have := List.any_eq_false.mp hafter l hl
        simpa using this
      have hctxa : contextAfterAux s.code_tag s.code_tag.after_count
          (f.lines.drop (s.last_line + 1)) s.context_after = [] := by
        rw [contextAfterAux_of_none _ _ _ _ hnonea]; exact ha
      rw [hasCodeAux_eq, hctxa, hafter]
      simp

/-- Concrete file-level location used by witnesses. -/
def sampleLocation : Location := Location.make none "file" (some "Lox.java") false

/-- Concrete snippet used by witnesses: one added line at index 0 of a
one-line file, with the catalog's `setup` region. -/
def sampleSnippet : Snippet :=
  Snippet.mk (CodeTag.mk 0 "setup" 0 false 2 1) (some sampleLocation) none 0 0 [] []
    ["int x;"] []

/-- Concrete one-line source file used by witnesses. -/
def sampleFile : SourceFile :=
  SourceFile.mk [SourceLine.mk "int x;" sampleLocation (CodeTag.mk 0 "setup" 0 false 2 1) none]

/-- Witness for C7 at a concrete snippet: there is no line before the first
added line and none after it, so the location is wrapped in a `new` node. -/
theorem c7_location_correction_witness :
    (sampleSnippet.compute_context sampleFile).location
      = some (Location.make (some sampleLocation) "new" none false) :=
  (c7_location_correction sampleSnippet sampleFile rfl rfl).trans rfl

/-- Embeds Rust's `str::ends_with` over the character lists. -/
def rustEndsWith (s : String) (suffix : String) : Bool :=
  suffix.data.isSuffixOf s.data

/-- Embeds `str::parse::<u32>().unwrap()` as used on the context-count
options: `none` models the parse panic on a non-digit string.  (Rust also
accepts a leading sign and rejects values ≥ 2^32; no claim depends on either,
and the counts are only ever compared, so the value is a `Nat`.) -/
def rustParseU32 (s : String) : Option Nat :=
  if s.data ≠ [] && s.data.all Char.isDigit then
    some (s.data.foldl (fun acc c => acc * 10 + (c.toNat - 48)) 0)
  else none

/-- One iteration of the option `for_each` in
`CodeTagsHighlighterPreprocessor::collect_code_tags`: `no location` sets the
flag, an option ending in ` before`/` after` re-parses its numeric prefix
(byte slicing `opt[..len-6]` / `opt[..len-5]` is rendered as the char-level
`take`; the options are ASCII), anything else is ignored.  The accumulator is
the mutable triple `(no_location, before_count, after_count)`. -/
def parseOptionStep (acc : Bool × Nat × Nat) (opt : String) : Option (Bool × Nat × Nat) :=
  if opt = "no location" then some (true, acc.2.1, acc.2.2)
  else if rustEndsWith opt " before" then
    (rustParseU32 (rustTrim (String.mk (opt.data.take (opt.data.length - 6))))).map
      (fun n => (acc.1, n, acc.2.2))
  else if rustEndsWith opt " after" then
    (rustParseU32 (rustTrim (String.mk (opt.data.take (opt.data.length - 5))))).map
      (fun n => (acc.1, acc.2.1, n))
  else some acc

/-- The whole option `for_each` of `collect_code_tags`, over the already
comma-split and trimmed option substrings of one documentation reference,
starting from the defaults `(false, 0, 0)`. -/
def parseCodeTagOptions : List String → (Bool × Nat × Nat) → Option (Bool × Nat × Nat)
  | [], acc => some acc
  | opt :: rest, acc =>
      match parseOptionStep acc opt with
      | none => none
      | some acc2 => parseCodeTagOptions rest acc2

/-- If no option ends in ` before`, the option fold preserves the
`before_count` component. -/
theorem parseCodeTagOptions_before_of_none :
    ∀ (opts : List String) (acc res : Bool × Nat × Nat),
      parseCodeTagOptions opts acc = some res →
      (∀ o ∈ opts, rustEndsWith o " before" = false) →
      res.2.1 = acc.2.1 := by
  intro opts
  induction opts with
  | nil =>
    intro acc res h _
    simp only [parseCodeTagOptions, Option.some.injEq] at h
    rw [← h]
  | cons opt rest ih =>
    intro acc res h hno
    simp only [parseCodeTagOptions] at h
    cases hstep : parseOptionStep acc opt with
    | none => rw [hstep] at h; exact absurd h (by simp)
    | some acc2 =>
      rw [hstep] at h
      have h2 : acc2.2.1 = acc.2.1 := by
        have hnb : rustEndsWith opt " before" = false := hno opt (List.mem_cons_self _ _)
        unfold parseOptionStep at hstep
        by_cases hnl : opt = "no location"
        · simp only [hnl, if_true, Option.some.injEq] at hstep
          rw [← hstep]
        · rw [if_neg hnl, hnb] at hstep
          simp only [Bool.false_eq_true, if_false] at hstep
          by_cases hna : rustEndsWith opt " after" = true
          · rw [if_pos hna] at hstep
            cases hp : rustParseU32 (rustTrim (String.mk (opt.data.take (opt.data.length - 5)))) with
            | none => rw [hp] at hstep; exact absurd hstep (by simp)
            | some n =>
              rw [hp] at hstep
              have hstep2 : (acc.1, acc.2.1, n) = acc2 := Option.some.inj hstep
              rw [← hstep2]
          · rw [if_neg (by simpa using hna)] at hstep
            simp only [Option.some.injEq] at hstep
            rw [← hstep]
      rw [ih acc2 res h (fun o ho => hno o (List.mem_cons_of_mem _ ho)), h2]

/-- If no option ends in ` after`, the option fold preserves the
`after_count` component. -/
theorem parseCodeTagOptions_after_of_none :
    ∀ (opts : List String) (acc res : Bool × Nat × Nat),
      parseCodeTagOptions opts acc = some res →
      (∀ o ∈ opts, rustEndsWith o " after" = false) →
      res.2.2 = acc.2.2 := by
  intro opts
  induction opts with
  | nil =>
    intro acc res h _
    simp only [parseCodeTagOptions, Option.some.injEq] at h
    rw [← h]
  | cons opt rest ih =>
    intro acc res h hno
    simp only [parseCodeTagOptions] at h
    cases hstep : parseOptionStep acc opt with
    | none => rw [hstep] at h; exact absurd h (by simp)
    | some acc2 =>
      rw [hstep] at h
      have h2 : acc2.2.2 = acc.2.2 := by
        have hna : rustEndsWith opt " after" = false := hno opt (List.mem_cons_self _ _)
        unfold parseOptionStep at hstep
        by_cases hnl : opt = "no location"
        · simp only [hnl, if_true, Option.some.injEq] at hstep
          rw [← hstep]
        · rw [if_neg hnl] at hstep
          by_cases hnb : rustEndsWith opt " before" = true
          · rw [hnb] at hstep
            simp only [if_true] at hstep
            cases hp : rustParseU32 (rustTrim (String.mk (opt.data.take (opt.data.length - 6)))) with
            | none => rw [hp] at hstep; exact absurd hstep (by simp)
            | some n =>
              rw [hp] at hstep
              have hstep2 : (acc.1, n, acc.2.2) = acc2 := Option.some.inj hstep
              rw [← hstep2]
          · rw [(by simpa using hnb : rustEndsWith opt " before" = false)] at hstep
            simp only [Bool.false_eq_true, if_false, hna] at hstep
            simp only [Option.some.injEq] at hstep
            rw [← hstep]
      rw [ih acc2 res h (fun o ho => hno o (List.mem_cons_of_mem _ ho)), h2]

/-- Claim C8 (confirmed): for every snippet run through `compute_context` with
empty context accumulators (as the driver always does), the computed
context-before never exceeds the region's `before_count` and the computed
context-after never exceeds `after_count`; and when a documentation
reference's option list declares no ` before` (resp. ` after`) option, the
corresponding count parsed by `collect_code_tags` is 0. -/
theorem c8_context_budgets :
    (∀ (s : Snippet) (f : SourceFile), s.context_before = [] → s.context_after = [] →
      (s.compute_context f).context_before.length ≤ s.code_tag.before_count
      ∧ (s.compute_context f).context_after.length ≤ s.code_tag.after_count)
    ∧ (∀ (opts : List String) (nl : Bool) (b a : Nat),
        parseCodeTagOptions opts (false, 0, 0) = some (nl, b, a) →
        ((∀ o ∈ opts, rustEndsWith o " before" = false) → b = 0)
        ∧ ((∀ o ∈ opts, rustEndsWith o " after" = false) → a = 0)) := by
  constructor
  · intro s f hb ha
    constructor
    · simp only [Snippet.compute_context]
      exact contextBeforeAux_length _ _ _ _ (by rw [hb]; exact Nat.zero_le _)
    · simp only [Snippet.compute_context]
      exact contextAfterAux_length _ _ _ _ (by rw [ha]; exact Nat.zero_le _)
  · intro opts nl b a h
    exact ⟨fun hno => parseCodeTagOptions_before_of_none opts _ _ h hno,
           fun hno => parseCodeTagOptions_after_of_none opts _ _ h hno⟩

/-- Witness for C8: the concrete snippet's contexts respect the budgets, and
the option list `["no location"]` (which declares neither count) yields 0 for
both. -/
theorem c8_context_budgets_witness :
    ((sampleSnippet.compute_context sampleFile).context_before.length
        ≤ sampleSnippet.code_tag.before_count
      ∧ (sampleSnippet.compute_context sampleFile).context_after.length
        ≤ sampleSnippet.code_tag.after_count)
    ∧ (0 = 0 ∧ 0 = 0) := by
  constructor
  · exact c8_context_budgets.1 sampleSnippet sampleFile rfl rfl
  · have h := c8_context_budgets.2 ["no location"] true 0 0 rfl
    exact ⟨h.1 (by decide), h.2 (by decide)⟩

/-- Character class `\w` of the scanner regexes (the scanned sources are
ASCII, so the ASCII classes coincide with the regex crate's). -/
def isWordChar (c : Char) : Bool := c.isAlphanum || c = '_'

/-- Maximal `\w*` prefix of a character list, returning (match, rest).  The
scanner regexes only ever follow `\w+` by a character that is not a word
character, so the greedy maximal run is the unique viable one. -/
def takeWord : List Char → List Char × List Char
  | [] => ([], [])
  | c :: rest =>
      if isWordChar c then
        let p := takeWord rest
        (c :: p.1, p.2)
      else ([], c :: rest)

/-- Maximal `>*` prefix (backtracking cannot help: a retained `>` matches
neither the following `\*?` nor the literal space). -/
def dropGts : List Char → List Char
  | '>' :: rest => dropGts rest
  | l => l

/-- The ` (\w+)\(([^)]*)` tail of `FUNCTION_PATTERN`
(`(\w+)>*\*? (\w+)\(([^)]*)`): a space, the name group, an opening paren
(the trailing `([^)]*)` group always matches and is unused by the code). -/
def functionTailAt : List Char → Option String
  | ' ' :: r =>
      (let p := takeWord r
       if p.1 = [] then none
       else
         match p.2 with
         | '(' :: _ => some (String.mk p.1)
         | _ => none)
  | _ => none

/-- `FUNCTION_PATTERN` anchored at the start of `l`: first capture group and
name group.  The optional `\*?` is tried greedily first, then without, as the
regex engine does. -/
def matchFunctionAt (l : List Char) : Option (String × String) :=
  let p := takeWord l
  if p.1 = [] then none
  else
    let r2 := dropGts p.2
    match r2 with
    | '*' :: r3 =>
        (match functionTailAt r3 with
         | some g2 => some (String.mk p.1, g2)
         | none =>
             match functionTailAt r2 with
             | some g2 => some (String.mk p.1, g2)
             | none => none)
    | _ =>
        (match functionTailAt r2 with
         | some g2 => some (String.mk p.1, g2)
         | none => none)

/-- Unanchored leftmost search for `FUNCTION_PATTERN`, as
`Regex::captures` performs it. -/
def findFunctionMatch : List Char → Option (String × String)
  | [] => none
  | c :: rest =>
      match matchFunctionAt (c :: rest) with
      | some r => some r
      | none => findFunctionMatch rest

/-- `CONSTRUCTOR_PATTERN` (`^  ([A-Z][a-z]\w+)\(`), anchored: two spaces, an
uppercase then a lowercase letter, more word characters, an opening paren. -/
def matchConstructor (l : List Char) : Option String :=
  match l with
  | ' ' :: ' ' :: c1 :: c2 :: rest =>
      if c1.isUpper && c2.isLower then
        (let p := takeWord rest
         if p.1 = [] then none
         else
           match p.2 with
           | '(' :: _ => some (String.mk (c1 :: c2 :: p.1))
           | _ => none)
      else none
  | _ => none

/-- Literal-prefix stripping used for the optional `public ` / `abstract `
groups and the type keywords. -/
def stripLit : List Char → List Char → Option (List Char)
  | [], l => some l
  | _ :: _, [] => none
  | p :: ps, c :: cs => if p = c then stripLit ps cs else none

/-- The `(class|enum|interface) ([A-Z]\w+)` core of `TYPE_PATTERN` for one
keyword alternative; the trailing `.*` always matches. -/
def matchTypeKwSingle (kw : String) (l : List Char) : Option (String × String) :=
  match stripLit (kw.data ++ [' ']) l with
  | none => none
  | some r =>
      match r with
      | c :: rest =>
          if c.isUpper then
            (let p := takeWord rest
             if p.1 = [] then none else some (kw, String.mk (c :: p.1)))
          else none
      | [] => none

/-- The keyword alternation of `TYPE_PATTERN`, in the regex's priority
order. -/
def matchTypeKwAt (l : List Char) : Option (String × String) :=
  match matchTypeKwSingle "class" l with
  | some r => some r
  | none =>
      match matchTypeKwSingle "enum" l with
      | some r => some r
      | none => matchTypeKwSingle "interface" l

/-- The `(abstract )?` optional group (present preferred, as the engine
backtracks). -/
def matchTypeAbstractOpt (l : List Char) : Option (String × String) :=
  match stripLit ("abstract ".data) l with
  | some r =>
      (match matchTypeKwAt r with
       | some x => some x
       | none => matchTypeKwAt l)
  | none => matchTypeKwAt l

/-- `TYPE_PATTERN` (`(public )?(abstract )?(class|enum|interface) ([A-Z]\w+).*`)
anchored at the start of `l`, returning the keyword and name groups. -/
def matchTypeAt (l : List Char) : Option (String × String) :=
  match stripLit ("public ".data) l with
  | some r =>
      (match matchTypeAbstractOpt r with
       | some x => some x
       | none => matchTypeAbstractOpt l)
  | none => matchTypeAbstractOpt l

/-- Unanchored leftmost search for `TYPE_PATTERN`. -/
def findTypeMatch : List Char → Option (String × String)
  | [] => none
  | c :: rest =>
      match matchTypeAt (c :: rest) with
      | some r => some r
      | none => findTypeMatch rest

/-- The ` (\w+)(;| = )` tail of `VARIABLE_PATTERN`. -/
def variableTailAt : List Char → Option String
  | ' ' :: r =>
      (let p := takeWord r
       if p.1 = [] then none
       else
         match p.2 with
         | ';' :: _ => some (String.mk p.1)
         | ' ' :: '=' :: ' ' :: _ => some (String.mk p.1)
         | _ => none)
  | _ => none

/-- `VARIABLE_PATTERN` (`^\w+\*? (\w+)(;| = )`), anchored. -/
def matchVariable (l : List Char) : Option String :=
  let p := takeWord l
  if p.1 = [] then none
  else
    match p.2 with
    | '*' :: r3 =>
        (match variableTailAt r3 with
         | some g => some g
         | none => variableTailAt p.2)
    | _ => variableTailAt p.2

/-- `line.contains("//")`. -/
def containsSlashSlash : List Char → Bool
  | '/' :: '/' :: _ => true
  | _ :: rest => containsSlashSlash rest
  | [] => false

/-- Embeds the Rust static `KEYWORDS`. -/
def KEYWORDS : List String := ["new", "return", "throw"]

/-- The constructor / type / variable cascade that
`SourceFileParser::update_location_before` falls through to when the function
pattern did not push: the constructor and variable patterns push
unconditionally on a match; the type pattern pushes only on a clean line (no
`//`, no quote) but returns either way. -/
def tryConstructorTypeVariable (cs : List Char) (loc : Location) : Location :=
  match matchConstructor cs with
  | some nm => Location.make (some loc) "constructor" (some nm) false
  | none =>
      match findTypeMatch cs with
      | some kwnm =>
          if !(containsSlashSlash cs) && !(cs.contains '"') then
            Location.make (some loc) kwnm.1 (some kwnm.2) false
          else loc
      | none =>
          match matchVariable cs with
          | some nm => Location.make (some loc) "variable" (some nm) false
          | none => loc

/-- Embeds `SourceFileParser::update_location_before`.  A function-pattern
match whose first group is a keyword, or that sits on a line containing `//`
or a quote, does *not* return: control falls through to the remaining
patterns.  The pushed kind is always `method` (the source hard-codes the
`language == "java"` branch); `is_function_declaration` is the trailing-`;`
test with the multi-line continuation hack on `next_line`. -/
def SourceFileParser.update_location_before (line : String) (nextLine : Option String)
    (loc : Location) : Location :=
  match findFunctionMatch line.data with
  | some g =>
      if !(KEYWORDS.contains g.1) then
        if !(containsSlashSlash line.data) && !(line.data.contains '"') then
          Location.make (some loc) "method" (some g.2)
            (rustEndsWith line ";" ||
              (rustEndsWith line "," && nextLine.elim false (fun nl => rustEndsWith nl ";")))
        else tryConstructorTypeVariable line.data loc
      else tryConstructorTypeVariable line.data loc
  | none => tryConstructorTypeVariable line.data loc

/-- Claim C6 (corrected), counterexample: the line `  Foo("x")` contains a
quote character, yet the constructor pattern pushes a new child Location for
it — the `//`/quote suppression guards only the function and type patterns. -/
theorem c6_counterexample :
    SourceFileParser.update_location_before "  Foo(\"x\")" none sampleLocation
      = Location.make (some sampleLocation) "constructor" (some "Foo") false
    ∧ ("  Foo(\"x\")".data.contains '"') = true
    ∧ Location.make (some sampleLocation) "constructor" (some "Foo") false ≠ sampleLocation := by
  refine ⟨rfl, rfl, by decide⟩

/-- Claim C6 (amended): on a line containing `//` or a quote character, the
function and type patterns never push (the scanner either leaves the location
unchanged or pushes via the unsuppressed constructor or variable pattern). -/
theorem c6_suppression (line : String) (nextLine : Option String) (loc : Location)
    (h : containsSlashSlash line.data = true ∨ line.data.contains '"' = true) :
    SourceFileParser.update_location_before line nextLine loc = loc
    ∨ ∃ nm, SourceFileParser.update_location_before line nextLine loc
          = Location.make (some loc) "constructor" (some nm) false
        ∨ SourceFileParser.update_location_before line nextLine loc
          = Location.make (some loc) "variable" (some nm) false := by
  have hdirty : (!(containsSlashSlash line.data) && !(line.data.contains '"')) = false := by
    rcases h with h | h
    · rw [h]; rfl
    · rw [h]; simp
  have htry : tryConstructorTypeVariable line.data loc = loc
      ∨ ∃ nm, tryConstructorTypeVariable line.data loc
            = Location.make (some loc) "constructor" (some nm) false
          ∨ tryConstructorTypeVariable line.data loc
            = Location.make (some loc) "variable" (some nm) false := by
    unfold tryConstructorTypeVariable
    cases hc : matchConstructor line.data with
    | some nm => exact Or.inr ⟨nm, Or.inl rfl⟩
    | none =>
      cases ht : findTypeMatch line.data with
      | some kwnm =>
        rw [hdirty]
        simp
      | none =>
        cases hv : matchVariable line.data with
        | some nm => exact Or.inr ⟨nm, Or.inr rfl⟩
        | none => exact Or.inl rfl
  unfold SourceFileParser.update_location_before
  cases hf : findFunctionMatch line.data with
  | none => exact htry
  | some g =>
    by_cases hk : KEYWORDS.contains g.1
    · simp only [hk, Bool.not_true, Bool.false_eq_true, if_false]
      exact htry
    · simp only [Bool.not_eq_true] at hk
      simp only [hk, Bool.not_false, if_true, hdirty, Bool.false_eq_true, if_false]
      exact htry

/-- Witness for C6's amended theorem at the dirty constructor line. -/
theorem c6_suppression_witness :
    SourceFileParser.update_location_before "  Foo(\"x\")" none sampleLocation
        = sampleLocation
    ∨ ∃ nm, SourceFileParser.update_location_before "  Foo(\"x\")" none sampleLocation
          = Location.make (some sampleLocation) "constructor" (some nm) false
        ∨ SourceFileParser.update_location_before "  Foo(\"x\")" none sampleLocation
          = Location.make (some sampleLocation) "variable" (some nm) false :=
  c6_suppression "  Foo(\"x\")" none sampleLocation (Or.inr rfl)
